import Mathlib

/-!
Verification of the media-download core in `src/engine/util/http.ts`:
the mime classifier `getMediaMimeExtension` and the streaming download
controller `downloadMedia`.

JavaScript strings are modelled as `List Char`.  The `mime-types` npm
dependency (not part of this repository) is modelled from its published
source: `mime.extension(type)` extracts the base type with the regular
expression `^\s*([^;\s]*)(?:;|\s|$)`, lowercases it, looks it up in the
mime-db table, and returns the first extension of the entry (or `false`).
-/

namespace Http

/-- JS `String.prototype.trim` removes Unicode whitespace; modelled with
`Char.isWhitespace`. -/
def isSpace (c : Char) : Bool := c.isWhitespace

/-- Character-wise `String.prototype.toLowerCase`. -/
def lowerL (s : List Char) : List Char := s.map Char.toLower

/-- Remove trailing whitespace. -/
def trimRight (s : List Char) : List Char := (s.reverse.dropWhile isSpace).reverse

/-- JS `String.prototype.trim`: leading and trailing whitespace removed. -/
def trimL (s : List Char) : List Char := trimRight (s.dropWhile isSpace)

/-- JS `String.prototype.startsWith` on char lists. -/
def startsWithL : List Char → List Char → Bool
  | _, [] => true
  | [], _ :: _ => false
  | c :: cs, d :: ds => c = d && startsWithL cs ds

/-- Association-list lookup used for the MIME table. -/
def lookupExt (k : List Char) : List (List Char × List Char) → Option (List Char)
  | [] => none
  | (a, v) :: rest => if k = a then some v else lookupExt k rest

/-- `const allowedTypes = ['image/', 'audio/', 'video/'];` (http.ts line 117). -/
def allowedTypes : List (List Char) := ["image/".data, "audio/".data, "video/".data]

/-- The guard `allowedTypes.some(t => type.trim().toLowerCase().startsWith(t))`
from http.ts line 126. -/
def isAllowedType (type : List Char) : Bool :=
  allowedTypes.any (fun t => startsWithL (lowerL (trimL type)) t)

/-- The base-type extraction performed inside `mime.extension` by the regular
expression `^\s*([^;\s]*)(?:;|\s|$)`: skip leading whitespace, then take the
longest run of characters that are neither `;` nor whitespace.  Modelled from
the external `mime-types` dependency. -/
def extractType (s : List Char) : List Char :=
  (s.dropWhile isSpace).takeWhile (fun c => !(c = ';' || isSpace c))

/-- Modelled from the external `mime-types` dependency and its bundled mime-db
table: each listed value is the FIRST element of the `extensions` array of the
corresponding mime-db entry, which is what `mime.extension` returns.  Note in
particular mime-db's `"audio/mpeg": ["mpga","mp2","mp2a","mp3","m2a","m3a"]`
and `"image/jpeg": ["jpeg","jpg","jpe"]`. -/
def mimeExtensions : List (List Char × List Char) :=
  [ ("image/jpeg".data, "jpeg".data)
  , ("image/png".data, "png".data)
  , ("image/gif".data, "gif".data)
  , ("image/webp".data, "webp".data)
  , ("image/bmp".data, "bmp".data)
  , ("image/svg+xml".data, "svg".data)
  , ("audio/mpeg".data, "mpga".data)
  , ("audio/mp4".data, "m4a".data)
  , ("audio/ogg".data, "oga".data)
  , ("audio/wav".data, "wav".data)
  , ("video/mp4".data, "mp4".data)
  , ("video/webm".data, "webm".data)
  , ("video/quicktime".data, "qt".data)
  , ("video/x-msvideo".data, "avi".data)
  , ("text/html".data, "html".data)
  , ("application/json".data, "json".data) ]

/-- `mime.extension(type)` of the `mime-types` package: extract the base type,
lowercase it, look it up, return the entry's first extension (`none` models the
`false` return). -/
def mimeExtension (s : List Char) : Option (List Char) :=
  lookupExt (lowerL (extractType s)) mimeExtensions

/-- `getMediaMimeExtension` (http.ts lines 126-130):
`if (!type || !allowedTypes.some(t => type.trim().toLowerCase().startsWith(t))) return false;`
then `const ext = mime.extension(type); return ext === 'jpeg' ? 'jpg' : ext;`.
`none` models the `false` return; the empty list models the empty/absent
header (the only falsy string). -/
def getMediaMimeExtension (type : List Char) : Option (List Char) :=
  if type = [] ∨ isAllowedType type = false then none
  else
    match mimeExtension type with
    | none => none
    | some e => some (if e = "jpeg".data then "jpg".data else e)

/-- Snapshot of one invocation's observable state: the caller's
`DownloadProgress` fields the controller mutates (`knowsPercent`, `percent`,
and the running `downloaded` counter), the bytes relayed to the destination
file, and the side effects of the controller.  `percent` is a rational
modelling the JS number `parseFloat((downloaded/totalLength).toFixed(2))`. -/
structure StreamState where
  downloaded : Nat
  knowsPercent : Bool
  percent : ℚ
  fileData : List Nat
  parentsEnsured : Bool
  openedPath : Option (List Char)
  writerClosedEarly : Bool
  cancelInvoked : Bool
deriving DecidableEq

/-- State before any chunk: fresh progress, no file opened, no side effects. -/
def initState : StreamState :=
  { downloaded := 0, knowsPercent := false, percent := 0, fileData := []
  , parentsEnsured := false, openedPath := none
  , writerClosedEarly := false, cancelInvoked := false }

/-- `parseFloat(q.toFixed(2))`: round to the nearest hundredth, ties away from
zero for nonnegative values (ECMA-262 `toFixed` picks the larger candidate on
a tie).  IEEE doubles are modelled as exact rationals. -/
def round2 (q : ℚ) : ℚ := (⌊q * 100 + 1 / 2⌋ : ℤ) / 100

/-- One event observed by the controller during streaming.
`chunk bytes stopRequested` is a `data` event delivering `bytes`, with
`stopRequested` the value of `prog.shouldStop` read by the handler at that
instant; `dataError` is an `error` event of the response stream; `writerError`
is an `error` event of the destination `fs.WriteStream`.  Causes are abstract
tokens. -/
inductive StreamEvent where
  | chunk (bytes : List Nat) (stopRequested : Bool)
  | dataError (cause : Nat)
  | writerError (cause : Nat)
deriving DecidableEq

/-- How the streaming phase ended. -/
inductive StreamEnd where
  | finished
  | stopped
  | dataFailed (cause : Nat)
  | writerFailed (cause : Nat)
deriving DecidableEq

/-- The chunk loop of `downloadMedia` (http.ts lines 78-92): per `data` event,
first `if (prog.shouldStop) { writer.close(); return cancel(); }` — no
progress update for that chunk, the writer is closed, the cancel handle is
invoked, and the aborted request delivers no further event; otherwise
`if (totalLength) { downloaded += chunk.length; prog.knowsPercent = true;
prog.percent = parseFloat((downloaded/totalLength).toFixed(2)); } else
{ prog.knowsPercent = false; }`, and `data.pipe(writer)` appends the chunk to
the file.  A response-stream error ends delivery with no handler attached; a
writer error is reported by the writer.  `total` is `headers['content-length']`
(`none` models an absent/empty header). -/
def runChunks (total : Option Nat) : List StreamEvent → StreamState → StreamState × StreamEnd
  | [], st => (st, StreamEnd.finished)
  | StreamEvent.chunk bytes stop :: rest, st =>
    if stop then
      ({ st with writerClosedEarly := true, cancelInvoked := true }, StreamEnd.stopped)
    else
      match total with
      | some t =>
        runChunks (some t) rest
          { st with downloaded := st.downloaded + bytes.length
                  , knowsPercent := true
                  , percent := round2 (((st.downloaded + bytes.length : Nat) : ℚ) / (t : ℚ))
                  , fileData := st.fileData ++ bytes }
      | none =>
        runChunks none rest
          { st with knowsPercent := false, fileData := st.fileData ++ bytes }
  | StreamEvent.dataError c :: _, st => (st, StreamEnd.dataFailed c)
  | StreamEvent.writerError c :: _, st => (st, StreamEnd.writerFailed c)

/-- Terminal behaviour of one `downloadMedia` call as seen by the caller.
`rejectedMime` is the `throw Error('Attempted to download non-media
mimetype.')`; `resolved ext` is `resolve(ext)`; `gracefulStop` is
`reject(new GracefulStopError(...))`; `transportError c` is `reject(err)`
with the writer's cause `c` unchanged; `neverSettles` records that no
handler settles the promise (the response stream's `error` has no listener
and `pipe` neither errors nor closes the writer then). -/
inductive DlResult where
  | rejectedMime
  | resolved (ext : List Char)
  | gracefulStop
  | transportError (cause : Nat)
  | neverSettles
deriving DecidableEq

/-- State right after classification succeeded: `await mkParents(filePath)`
has completed and `fs.createWriteStream(filePath + '.' + ext)` has opened
(and truncated) the destination. -/
def openState (filePath ext : List Char) : StreamState :=
  { initState with parentsEnsured := true, openedPath := some (filePath ++ '.' :: ext) }

/-- `downloadMedia` (http.ts lines 55-100) over one response whose headers
carry `contentType` and `total`, whose stream produces `events`, and where
`stopAtClose` is `prog.shouldStop` at the moment the writer's `close` event
fires.  Classification failure throws before `mkParents` and
`createWriteStream` run; on acceptance the parents are ensured and
`filePath + '.' + ext` is opened with `fs.createWriteStream` (mode `w`,
truncating).  The writer's `close` handler rejects with `GracefulStopError`
when `prog.shouldStop` is set, else resolves with the extension; its `error`
handler rejects with the cause unchanged. -/
def downloadMedia (contentType filePath : List Char) (total : Option Nat)
    (events : List StreamEvent) (stopAtClose : Bool) : DlResult × StreamState :=
  match getMediaMimeExtension contentType with
  | none => (DlResult.rejectedMime, initState)
  | some ext =>
    let r := runChunks total events (openState filePath ext)
    match r.2 with
    | StreamEnd.finished =>
      if stopAtClose then (DlResult.gracefulStop, r.1) else (DlResult.resolved ext, r.1)
    | StreamEnd.stopped =>
      if stopAtClose then (DlResult.gracefulStop, r.1) else (DlResult.resolved ext, r.1)
    | StreamEnd.dataFailed _ => (DlResult.neverSettles, r.1)
    | StreamEnd.writerFailed c => (DlResult.transportError c, r.1)

/-- An uneventful delivery: every chunk arrives with `prog.shouldStop` still
false and no stream error occurs. -/
def plainChunks (bs : List (List Nat)) : List StreamEvent :=
  bs.map (fun b => StreamEvent.chunk b false)

/-- Total number of bytes in a chunk sequence. -/
def sumLen (bs : List (List Nat)) : Nat := (bs.map List.length).sum

/-! ### List helpers -/

lemma dropWhile_append_cons (q : Char → Bool) (xs : List Char) (y : Char) (ys : List Char)
    (hy : q y = false) :
    List.dropWhile q (xs ++ y :: ys) = List.dropWhile q xs ++ y :: ys := by
  induction xs with
  | nil => simp [List.dropWhile, hy]
  | cons a rest ih =>
    by_cases ha : q a
    · simpa [List.dropWhile, ha] using ih
    · simp [List.dropWhile, ha]

lemma dropWhile_eq_self_of (q : Char → Bool) (xs : List Char)
    (h : ∀ c ∈ xs, q c = false) : List.dropWhile q xs = xs := by
  cases xs with
  | nil => rfl
  | cons a rest => simp [List.dropWhile, h a (by simp)]

lemma takeWhile_eq_self_of (q : Char → Bool) (xs : List Char)
    (h : ∀ c ∈ xs, q c = true) : List.takeWhile q xs = xs := by
  induction xs with
  | nil => rfl
  | cons a rest ih =>
    simp only [List.takeWhile, h a (by simp)]
    exact congrArg (a :: ·) (ih fun c hc => h c (by simp [hc]))

lemma takeWhile_append_cons (q : Char → Bool) (xs : List Char) (y : Char) (ys : List Char)
    (hxs : ∀ c ∈ xs, q c = true) (hy : q y = false) :
    List.takeWhile q (xs ++ y :: ys) = xs := by
  induction xs with
  | nil => simp [List.takeWhile, hy]
  | cons a rest ih =>
    simp only [List.cons_append, List.takeWhile, hxs a (by simp)]
    exact congrArg (a :: ·) (ih fun c hc => hxs c (by simp [hc]))

lemma startsWithL_append (p xs r : List Char) (h : startsWithL xs p = true) :
    startsWithL (xs ++ r) p = true := by
  induction p generalizing xs with
  | nil => simp [startsWithL]
  | cons d ds ih =>
    cases xs with
    | nil => simp [startsWithL] at h
    | cons c cs =>
      simp only [startsWithL, Bool.and_eq_true] at h
      simpa [startsWithL, h.1] using ih cs h.2

lemma lookupExt_mem (k v : List Char) :
    ∀ l : List (List Char × List Char), lookupExt k l = some v → v ∈ l.map Prod.snd := by
  intro l
  induction l with
  | nil => intro h; simp [lookupExt] at h
  | cons a rest ih =>
    intro h
    simp only [lookupExt] at h
    split at h
    · simp [Option.some_inj.mp h]
    · simp [ih h]

/-! ### Classifier lemmas -/

lemma trimL_eq_self (base : List Char) (h : ∀ c ∈ base, isSpace c = false) :
    trimL base = base := by
  unfold trimL trimRight
  rw [dropWhile_eq_self_of _ _ h, dropWhile_eq_self_of, List.reverse_reverse]
  intro c hc
  exact h c (List.mem_reverse.mp hc)

lemma trimL_param_ext (base params : List Char) (h : ∀ c ∈ base, isSpace c = false) :
    ∃ w, trimL (base ++ ';' :: params) = base ++ ';' :: w := by
  have hsemi : isSpace ';' = false := by decide
  unfold trimL trimRight
  rw [dropWhile_append_cons _ _ _ _ hsemi, dropWhile_eq_self_of _ _ h]
  rw [List.reverse_append, List.reverse_cons, List.append_assoc, List.singleton_append,
    dropWhile_append_cons _ _ _ _ hsemi]
  refine ⟨(List.dropWhile isSpace params.reverse).reverse, ?_⟩
  by_cases hp : List.dropWhile isSpace params.reverse = []
  · simp [hp]
  · cases hd : List.dropWhile isSpace params.reverse with
    | nil => exact absurd hd hp
    | cons x xs => simp [List.reverse_append]

lemma extractType_eq_self (base : List Char)
    (h : ∀ c ∈ base, (c = ';' || isSpace c) = false) : extractType base = base := by
  unfold extractType
  rw [dropWhile_eq_self_of, takeWhile_eq_self_of]
  · intro c hc; simp [h c hc]
  · intro c hc
    have := h c hc
    simp only [Bool.or_eq_false_iff] at this
    exact this.2

lemma extractType_param_ext (base params : List Char)
    (h : ∀ c ∈ base, (c = ';' || isSpace c) = false) :
    extractType (base ++ ';' :: params) = base := by
  unfold extractType
  have hsp : ∀ c ∈ base, isSpace c = false := by
    intro c hc
    have := h c hc
    simp only [Bool.or_eq_false_iff] at this
    exact this.2
  rw [dropWhile_append_cons _ _ _ _ (by decide), dropWhile_eq_self_of _ _ hsp,
    takeWhile_append_cons]
  · intro c hc; simp [h c hc]
  · simp

lemma isAllowedType_param_ext (base params : List Char)
    (hallow : isAllowedType base = true) (h : ∀ c ∈ base, isSpace c = false) :
    isAllowedType (base ++ ';' :: params) = true := by
  unfold isAllowedType at hallow ⊢
  rw [List.any_eq_true] at hallow ⊢
  obtain ⟨a, ha, hsw⟩ := hallow
  refine ⟨a, ha, ?_⟩
  rw [trimL_eq_self _ h] at hsw
  obtain ⟨w, hw⟩ := trimL_param_ext base params h
  rw [hw]
  unfold lowerL
  rw [List.map_append]
  exact startsWithL_append _ _ _ hsw

lemma getMediaMimeExtension_shape (ct ext : List Char)
    (h : getMediaMimeExtension ct = some ext) :
    ct ≠ [] ∧ isAllowedType ct = true ∧
      ∃ e, mimeExtension ct = some e ∧ ext = (if e = "jpeg".data then "jpg".data else e) := by
  unfold getMediaMimeExtension at h
  split at h
  · exact absurd h (by simp)
  · rename_i hcond
    push_neg at hcond
    refine ⟨hcond.1, by simpa using hcond.2, ?_⟩
    cases hm : mimeExtension ct with
    | none => rw [hm] at h; exact absurd h (by simp)
    | some e =>
      rw [hm] at h
      exact ⟨e, rfl, (Option.some_inj.mp h).symm⟩

/-! ### Rounding lemmas -/

lemma round2_mono {q r : ℚ} (h : q ≤ r) : round2 q ≤ round2 r := by
  unfold round2
  have h1 : ⌊q * 100 + 1 / 2⌋ ≤ ⌊r * 100 + 1 / 2⌋ := Int.floor_le_floor (by linarith)
  have h2 : ((⌊q * 100 + 1 / 2⌋ : ℤ) : ℚ) ≤ ((⌊r * 100 + 1 / 2⌋ : ℤ) : ℚ) := by
    exact_mod_cast h1
  exact (div_le_div_iff_of_pos_right (by norm_num)).mpr h2

lemma round2_one : round2 1 = 1 := by
  unfold round2
  norm_num

lemma round2_nonneg {q : ℚ} (h : 0 ≤ q) : 0 ≤ round2 q := by
  have := round2_mono h
  have h0 : round2 0 = 0 := by unfold round2; norm_num
  linarith [h0 ▸ this]

lemma round2_le_one {q : ℚ} (h : q ≤ 1) : round2 q ≤ 1 := round2_one ▸ round2_mono h

/-! ### Chunk-loop lemmas -/

lemma sumLen_cons (b : List Nat) (bs : List (List Nat)) :
    sumLen (b :: bs) = b.length + sumLen bs := by
  simp [sumLen]

lemma runChunks_append_plain (total : Option Nat) (bs : List (List Nat))
    (evs : List StreamEvent) :
    ∀ st, runChunks total (plainChunks bs ++ evs) st
      = runChunks total evs (runChunks total (plainChunks bs) st).1 := by
  induction bs with
  | nil => intro st; simp [plainChunks, runChunks]
  | cons b rest ih =>
    intro st
    cases total <;> simp [plainChunks, runChunks] <;> exact ih _

lemma runChunks_plain_fields (total : Option Nat) (bs : List (List Nat)) :
    ∀ st, ∃ d k p, runChunks total (plainChunks bs) st
      = ({ st with downloaded := d, knowsPercent := k, percent := p
                 , fileData := st.fileData ++ bs.flatten }, StreamEnd.finished) := by
  induction bs with
  | nil =>
    intro st
    exact ⟨st.downloaded, st.knowsPercent, st.percent, by simp [plainChunks, runChunks]⟩
  | cons b rest ih =>
    intro st
    cases total with
    | none =>
      obtain ⟨d, k, p, hih⟩ := ih { st with knowsPercent := false, fileData := st.fileData ++ b }
      refine ⟨d, k, p, ?_⟩
      simp only [plainChunks, List.map_cons] at hih ⊢
      simp only [runChunks, Bool.false_eq_true, reduceIte]
      rw [hih]
      simp [List.append_assoc]
    | some t =>
      obtain ⟨d, k, p, hih⟩ :=
        ih { st with downloaded := st.downloaded + b.length, knowsPercent := true
                   , percent := round2 (((st.downloaded + b.length : Nat) : ℚ) / (t : ℚ))
                   , fileData := st.fileData ++ b }
      refine ⟨d, k, p, ?_⟩
      simp only [plainChunks, List.map_cons] at hih ⊢
      simp only [runChunks, Bool.false_eq_true, reduceIte]
      rw [hih]
      simp [List.append_assoc]

lemma runChunks_plain_progress (t : Nat) (bs : List (List Nat)) (hbs : bs ≠ []) :
    ∀ st, runChunks (some t) (plainChunks bs) st
      = ({ st with downloaded := st.downloaded + sumLen bs
                 , knowsPercent := true
                 , percent := round2 (((st.downloaded + sumLen bs : Nat) : ℚ) / (t : ℚ))
                 , fileData := st.fileData ++ bs.flatten }, StreamEnd.finished) := by
  induction bs with
  | nil => exact absurd rfl hbs
  | cons b rest ih =>
    intro st
    by_cases hr : rest = []
    · subst hr
      simp [plainChunks, runChunks, sumLen]
    · have ih2 := ih hr
      simp only [plainChunks, List.map_cons] at ih2 ⊢
      simp only [runChunks, Bool.false_eq_true, reduceIte]
      rw [ih2]
      simp [sumLen_cons, Nat.add_assoc, List.append_assoc]

lemma runChunks_stop (total : Option Nat) (pre : List (List Nat)) (b : List Nat)
    (post : List StreamEvent) (st : StreamState) :
    runChunks total (plainChunks pre ++ StreamEvent.chunk b true :: post) st
      = ({ (runChunks total (plainChunks pre) st).1 with
            writerClosedEarly := true, cancelInvoked := true }, StreamEnd.stopped) := by
  rw [runChunks_append_plain]
  simp [runChunks]

lemma runChunks_writer_error (total : Option Nat) (pre : List (List Nat)) (c : Nat)
    (post : List StreamEvent) (st : StreamState) :
    runChunks total (plainChunks pre ++ StreamEvent.writerError c :: post) st
      = ((runChunks total (plainChunks pre) st).1, StreamEnd.writerFailed c) := by
  rw [runChunks_append_plain]
  simp [runChunks]

/-! ### `downloadMedia` dispatch lemmas -/

lemma downloadMedia_finished (ct fp : List Char) (total : Option Nat)
    (events : List StreamEvent) (fs : Bool) (ext : List Char)
    (hext : getMediaMimeExtension ct = some ext)
    (hend : (runChunks total events (openState fp ext)).2 = StreamEnd.finished) :
    downloadMedia ct fp total events fs
      = (if fs then DlResult.gracefulStop else DlResult.resolved ext,
         (runChunks total events (openState fp ext)).1) := by
  simp only [downloadMedia, hext]
  rw [hend]
  cases fs <;> rfl

lemma downloadMedia_stopped (ct fp : List Char) (total : Option Nat)
    (events : List StreamEvent) (fs : Bool) (ext : List Char)
    (hext : getMediaMimeExtension ct = some ext)
    (hend : (runChunks total events (openState fp ext)).2 = StreamEnd.stopped) :
    downloadMedia ct fp total events fs
      = (if fs then DlResult.gracefulStop else DlResult.resolved ext,
         (runChunks total events (openState fp ext)).1) := by
  simp only [downloadMedia, hext]
  rw [hend]
  cases fs <;> rfl

lemma downloadMedia_writerFailed (ct fp : List Char) (total : Option Nat)
    (events : List StreamEvent) (fs : Bool) (ext : List Char) (c : Nat)
    (hext : getMediaMimeExtension ct = some ext)
    (hend : (runChunks total events (openState fp ext)).2 = StreamEnd.writerFailed c) :
    downloadMedia ct fp total events fs
      = (DlResult.transportError c, (runChunks total events (openState fp ext)).1) := by
  simp only [downloadMedia, hext]
  rw [hend]

lemma downloadMedia_dataFailed (ct fp : List Char) (total : Option Nat)
    (events : List StreamEvent) (fs : Bool) (ext : List Char) (c : Nat)
    (hext : getMediaMimeExtension ct = some ext)
    (hend : (runChunks total events (openState fp ext)).2 = StreamEnd.dataFailed c) :
    downloadMedia ct fp total events fs
      = (DlResult.neverSettles, (runChunks total events (openState fp ext)).1) := by
  simp only [downloadMedia, hext]
  rw [hend]

lemma runChunks_data_error (total : Option Nat) (pre : List (List Nat)) (c : Nat)
    (post : List StreamEvent) (st : StreamState) :
    runChunks total (plainChunks pre ++ StreamEvent.dataError c :: post) st
      = ((runChunks total (plainChunks pre) st).1, StreamEnd.dataFailed c) := by
  rw [runChunks_append_plain]
  simp [runChunks]

/-! ### Claim theorems -/

/-- C4: for every content-type string, `getMediaMimeExtension` yields the rejecting
result `none` exactly when the string is empty, or its trimmed lowercased form does
not start with one of the allowed prefixes `image/`, `audio/`, `video/`, or the
MIME-to-extension table resolves no extension for it; in every other case it yields
`some` extension. -/
theorem claim_c4 (t : List Char) :
    getMediaMimeExtension t = none ↔
      t = [] ∨ isAllowedType t = false ∨ mimeExtension t = none := by
  unfold getMediaMimeExtension
  split
  · rename_i h
    exact iff_of_true rfl (h.imp (fun x => x) Or.inl)
  · rename_i h
    push_neg at h
    cases hm : mimeExtension t with
    | none => simp
    | some e =>
      refine iff_of_false (by simp) ?_
      rintro (h1 | h2 | h3)
      · exact h.1 h1
      · exact h.2 (by simp [h2])
      · simp at h3

/-- C5 counterexample: the claim says `classify("audio/mpeg")` yields the extension
`"mp3"`, but `getMediaMimeExtension` returns the mime-db table's first extension for
`audio/mpeg`, which is `"mpga"`. -/
theorem claim_c5_counterexample :
    getMediaMimeExtension ("audio/mpeg".data) = some ("mpga".data) ∧
    getMediaMimeExtension ("audio/mpeg".data) ≠ some ("mp3".data) := by
  constructor <;> decide

/-- C5 amended: `classify("image/jpeg")` yields `"jpg"` (never `"jpeg"`), and
`classify("audio/mpeg")` yields the table's default extension `"mpga"`; for every
accepted type, the result is the table's default extension except when that default
is `"jpeg"`, in which case it is overridden to `"jpg"`. -/
theorem claim_c5_amended (t e : List Char) (h : getMediaMimeExtension t = some e) :
    getMediaMimeExtension ("image/jpeg".data) = some ("jpg".data) ∧
    getMediaMimeExtension ("audio/mpeg".data) = some ("mpga".data) ∧
    e ≠ "jpeg".data ∧
    ((mimeExtension t = some ("jpeg".data) ∧ e = "jpg".data) ∨ mimeExtension t = some e) := by
  obtain ⟨-, -, e0, hm, he⟩ := getMediaMimeExtension_shape t e h
  refine ⟨by decide, by decide, ?_, ?_⟩
  · rw [he]
    split_ifs with hj
    · decide
    · exact hj
  · rw [he]
    split_ifs with hj
    · exact Or.inl ⟨by rw [hm, hj], rfl⟩
    · exact Or.inr hm

/-- Witness for C5 amended at `t = "image/jpeg"`, `e = "jpg"`. -/
theorem claim_c5_witness :
    getMediaMimeExtension ("image/jpeg".data) = some ("jpg".data) ∧
    (getMediaMimeExtension ("image/jpeg".data) = some ("jpg".data) ∧
     getMediaMimeExtension ("audio/mpeg".data) = some ("mpga".data) ∧
     "jpg".data ≠ "jpeg".data ∧
     ((mimeExtension ("image/jpeg".data) = some ("jpeg".data) ∧ "jpg".data = "jpg".data) ∨
      mimeExtension ("image/jpeg".data) = some ("jpg".data))) :=
  ⟨by decide, claim_c5_amended _ _ (by decide)⟩

/-- C10: a parameter suffix after the subtype never causes rejection of an
otherwise-accepted media type: if a base content type free of `;` and whitespace is
accepted with some extension, then the base followed by `;` and arbitrary parameters
is accepted with the same extension — both the allowed-prefix test and the table
lookup ignore everything from the `;` on. -/
theorem claim_c10 (base ext params : List Char)
    (hbase : getMediaMimeExtension base = some ext)
    (hclean : ∀ c ∈ base, (c = ';' || isSpace c) = false) :
    getMediaMimeExtension (base ++ ';' :: params) = some ext := by
  obtain ⟨hne, hallow, e0, hm, he⟩ := getMediaMimeExtension_shape base ext hbase
  have hsp : ∀ c ∈ base, isSpace c = false := fun c hc => by
    have hcc := hclean c hc
    simp only [Bool.or_eq_false_iff] at hcc
    exact hcc.2
  have hallow2 : isAllowedType (base ++ ';' :: params) = true :=
    isAllowedType_param_ext base params hallow hsp
  have hm2 : mimeExtension (base ++ ';' :: params) = some e0 := by
    unfold mimeExtension at hm ⊢
    rw [extractType_param_ext base params hclean]
    rw [extractType_eq_self base hclean] at hm
    exact hm
  unfold getMediaMimeExtension
  rw [if_neg (by simp [hallow2]), hm2]
  exact congrArg some he.symm

/-- Witness for C10 at `base = "image/png"`, `params = " charset=utf-8"`. -/
theorem claim_c10_witness :
    getMediaMimeExtension ("image/png".data) = some ("png".data) ∧
    (∀ c ∈ "image/png".data, (c = ';' || isSpace c) = false) ∧
    getMediaMimeExtension ("image/png".data ++ ';' :: " charset=utf-8".data)
      = some ("png".data) :=
  ⟨by decide, by decide, claim_c10 _ _ _ (by decide) (by decide)⟩

/-- C3: when the classifier rejects the response content type, `downloadMedia`
fails immediately with the distinct rejected-mimetype outcome, before `mkParents`
or `fs.createWriteStream` run: the returned state is the initial one, in which no
destination file was ever opened and no byte was written. -/
theorem claim_c3 (ct fp : List Char) (total : Option Nat) (events : List StreamEvent)
    (fs : Bool) (hrej : getMediaMimeExtension ct = none) :
    downloadMedia ct fp total events fs = (DlResult.rejectedMime, initState) ∧
    initState.openedPath = none ∧ initState.fileData = [] := by
  refine ⟨?_, rfl, rfl⟩
  simp [downloadMedia, hrej]

/-- Witness for C3 at `content-type: text/html`. -/
theorem claim_c3_witness :
    getMediaMimeExtension ("text/html".data) = none ∧
    (downloadMedia ("text/html".data) ("f".data) (some 10)
        [StreamEvent.chunk [1] false] false = (DlResult.rejectedMime, initState) ∧
     initState.openedPath = none ∧ initState.fileData = []) :=
  ⟨by decide, claim_c3 _ _ _ _ _ (by decide)⟩

/-- C1: when a chunk is delivered while `prog.shouldStop` is true (and the flag,
never reset, is still set at close time), the call rejects with the graceful-stop
outcome (`Cancelled`); the resulting state equals the state after the chunks
preceding the in-flight one, except that the destination handle is closed and the
cancellation handle invoked — so the detected chunk caused no progress update, and
no chunk at or after it was appended to the file. -/
theorem claim_c1 (ct fp : List Char) (total : Option Nat) (ext : List Char)
    (pre : List (List Nat)) (inflight : List Nat) (post : List StreamEvent)
    (hext : getMediaMimeExtension ct = some ext) :
    (downloadMedia ct fp total
        (plainChunks pre ++ StreamEvent.chunk inflight true :: post) true).1
      = DlResult.gracefulStop ∧
    (downloadMedia ct fp total
        (plainChunks pre ++ StreamEvent.chunk inflight true :: post) true).2
      = { (downloadMedia ct fp total (plainChunks pre) true).2 with
            writerClosedEarly := true, cancelInvoked := true } := by
  have hstop := runChunks_stop total pre inflight post (openState fp ext)
  have h1 := downloadMedia_stopped ct fp total
    (plainChunks pre ++ StreamEvent.chunk inflight true :: post) true ext hext
    (by rw [hstop])
  obtain ⟨d, k, p, hrun⟩ := runChunks_plain_fields total pre (openState fp ext)
  have h2 := downloadMedia_finished ct fp total (plainChunks pre) true ext hext
    (by rw [hrun])
  rw [h1, hstop, h2]
  exact ⟨rfl, rfl⟩

/-- Witness for C1: a png download cancelled on the second chunk. -/
theorem claim_c1_witness :
    getMediaMimeExtension ("image/png".data) = some ("png".data) ∧
    ((downloadMedia ("image/png".data) ("p".data) (some 100)
        (plainChunks [[1, 2]] ++ StreamEvent.chunk [3] true :: []) true).1
      = DlResult.gracefulStop ∧
     (downloadMedia ("image/png".data) ("p".data) (some 100)
        (plainChunks [[1, 2]] ++ StreamEvent.chunk [3] true :: []) true).2
      = { (downloadMedia ("image/png".data) ("p".data) (some 100)
            (plainChunks [[1, 2]]) true).2 with
            writerClosedEarly := true, cancelInvoked := true }) :=
  ⟨by decide, claim_c1 ("image/png".data) ("p".data) (some 100) ("png".data)
    [[1, 2]] [3] [] (by decide)⟩

/-- C9: `downloadMedia` never resolves successfully while `prog.shouldStop` is
true: even when every chunk streamed to disk without any stop check firing, if the
flag is set when the writer's close event fires, the call rejects with the
graceful-stop outcome instead of resolving with the extension. -/
theorem claim_c9 (ct fp : List Char) (total : Option Nat) (bs : List (List Nat))
    (ext : List Char) (hext : getMediaMimeExtension ct = some ext) :
    (downloadMedia ct fp total (plainChunks bs) true).1 = DlResult.gracefulStop ∧
    ∀ e, (downloadMedia ct fp total (plainChunks bs) true).1 ≠ DlResult.resolved e := by
  obtain ⟨d, k, p, hrun⟩ := runChunks_plain_fields total bs (openState fp ext)
  have h := downloadMedia_finished ct fp total (plainChunks bs) true ext hext
    (by rw [hrun])
  rw [h]
  exact ⟨rfl, fun e hc => by simp at hc⟩

/-- Witness for C9: a fully streamed gif download with the stop flag set at close. -/
theorem claim_c9_witness :
    getMediaMimeExtension ("image/gif".data) = some ("gif".data) ∧
    ((downloadMedia ("image/gif".data) ("g".data) (some 4)
        (plainChunks [[1, 1], [2, 2]]) true).1 = DlResult.gracefulStop ∧
     ∀ e, (downloadMedia ("image/gif".data) ("g".data) (some 4)
        (plainChunks [[1, 1], [2, 2]]) true).1 ≠ DlResult.resolved e) :=
  ⟨by decide, claim_c9 ("image/gif".data) ("g".data) (some 4) [[1, 1], [2, 2]]
    ("gif".data) (by decide)⟩

/-- C7: a successful call resolves with the classifier's extension (which never
starts with a dot), after opening exactly `filePath + "." + ext` (truncating) with
parent directories ensured, and the file holds the whole delivered body. -/
theorem claim_c7 (ct fp : List Char) (total : Option Nat) (bs : List (List Nat))
    (ext : List Char) (hext : getMediaMimeExtension ct = some ext) :
    (downloadMedia ct fp total (plainChunks bs) false).1 = DlResult.resolved ext ∧
    (downloadMedia ct fp total (plainChunks bs) false).2.openedPath
      = some (fp ++ '.' :: ext) ∧
    (downloadMedia ct fp total (plainChunks bs) false).2.parentsEnsured = true ∧
    (downloadMedia ct fp total (plainChunks bs) false).2.fileData = bs.flatten ∧
    ext ≠ [] ∧ ext.head? ≠ some '.' := by
  obtain ⟨d, k, p, hrun⟩ := runChunks_plain_fields total bs (openState fp ext)
  have h := downloadMedia_finished ct fp total (plainChunks bs) false ext hext
    (by rw [hrun])
  rw [h, hrun]
  refine ⟨rfl, rfl, rfl, by simp [openState, initState], ?_, ?_⟩
  · obtain ⟨-, -, e0, hm, he⟩ := getMediaMimeExtension_shape ct ext hext
    unfold mimeExtension at hm
    have hmem := lookupExt_mem _ _ _ hm
    have hall : ∀ v ∈ mimeExtensions.map Prod.snd, v ≠ ([] : List Char) := by decide
    rw [he]
    split_ifs with hj
    · decide
    · exact hall e0 hmem
  · obtain ⟨-, -, e0, hm, he⟩ := getMediaMimeExtension_shape ct ext hext
    unfold mimeExtension at hm
    have hmem := lookupExt_mem _ _ _ hm
    have hall : ∀ v ∈ mimeExtensions.map Prod.snd, v.head? ≠ some '.' := by decide
    rw [he]
    split_ifs with hj
    · decide
    · exact hall e0 hmem

/-- Witness for C7: an mp4 download with two chunks and no declared length. -/
theorem claim_c7_witness :
    getMediaMimeExtension ("video/mp4".data) = some ("mp4".data) ∧
    ((downloadMedia ("video/mp4".data) ("v".data) none (plainChunks [[5], [6, 7]])
        false).1 = DlResult.resolved ("mp4".data) ∧
     (downloadMedia ("video/mp4".data) ("v".data) none (plainChunks [[5], [6, 7]])
        false).2.openedPath = some ("v".data ++ '.' :: "mp4".data) ∧
     (downloadMedia ("video/mp4".data) ("v".data) none (plainChunks [[5], [6, 7]])
        false).2.parentsEnsured = true ∧
     (downloadMedia ("video/mp4".data) ("v".data) none (plainChunks [[5], [6, 7]])
        false).2.fileData = [[5], [6, 7]].flatten ∧
     "mp4".data ≠ [] ∧ "mp4".data.head? ≠ some '.') :=
  ⟨by decide, claim_c7 _ _ _ _ _ (by decide)⟩

/-- C6 counterexample: the claim says every network or disk failure during the
transfer is surfaced as the resolved outcome of the call, with exactly one terminal
outcome per invocation — but an error of the response stream after headers has no
handler (`data.on('error')` is never registered and `pipe` neither closes nor
errors the writer), so the call never settles: no terminal outcome, and in
particular not the transport failure carrying the cause. -/
theorem claim_c6_counterexample :
    (downloadMedia ("image/png".data) ("f".data) (some 10)
        [StreamEvent.dataError 7] false).1 = DlResult.neverSettles ∧
    DlResult.neverSettles ≠ DlResult.transportError 7 := by
  constructor <;> decide

/-- C6 amended: failures reported by the destination writer are surfaced to the
caller unchanged as the single terminal outcome of the call, whatever chunks
preceded them; failures of the response stream after headers are not surfaced —
the call produces no terminal outcome at all. -/
theorem claim_c6_amended (ct fp : List Char) (total : Option Nat) (ext : List Char)
    (pre : List (List Nat)) (post : List StreamEvent) (c : Nat) (fs : Bool)
    (hext : getMediaMimeExtension ct = some ext) :
    (downloadMedia ct fp total
        (plainChunks pre ++ StreamEvent.writerError c :: post) fs).1
      = DlResult.transportError c ∧
    (downloadMedia ct fp total
        (plainChunks pre ++ StreamEvent.dataError c :: post) fs).1
      = DlResult.neverSettles := by
  constructor
  · have hw := runChunks_writer_error total pre c post (openState fp ext)
    have h := downloadMedia_writerFailed ct fp total
      (plainChunks pre ++ StreamEvent.writerError c :: post) fs ext c hext (by rw [hw])
    rw [h]
  · have hd := runChunks_data_error total pre c post (openState fp ext)
    have h := downloadMedia_dataFailed ct fp total
      (plainChunks pre ++ StreamEvent.dataError c :: post) fs ext c hext (by rw [hd])
    rw [h]

/-- Witness for C6 amended: a webp download failing with writer cause 42 after one
chunk. -/
theorem claim_c6_witness :
    getMediaMimeExtension ("image/webp".data) = some ("webp".data) ∧
    ((downloadMedia ("image/webp".data) ("w".data) (some 9)
        (plainChunks [[1]] ++ StreamEvent.writerError 42 :: []) false).1
      = DlResult.transportError 42 ∧
     (downloadMedia ("image/webp".data) ("w".data) (some 9)
        (plainChunks [[1]] ++ StreamEvent.dataError 42 :: []) false).1
      = DlResult.neverSettles) :=
  ⟨by decide, claim_c6_amended ("image/webp".data) ("w".data) (some 9) ("webp".data)
    [[1]] [] 42 false (by decide)⟩

lemma sumLen_take_le (bs : List (List Nat)) : ∀ k, sumLen (bs.take k) ≤ sumLen bs := by
  induction bs with
  | nil => intro k; simp
  | cons b rest ih =>
    intro k
    cases k with
    | zero => simp [sumLen]
    | succ k =>
      simp only [List.take_succ_cons, sumLen_cons]
      exact Nat.add_le_add_left (ih k) _

lemma sumLen_take_mono (bs : List (List Nat)) {m n : Nat} (h : m ≤ n) :
    sumLen (bs.take m) ≤ sumLen (bs.take n) := by
  have heq : bs.take m = (bs.take n).take m := by
    rw [List.take_take, Nat.min_eq_left h]
  rw [heq]
  exact sumLen_take_le _ _

lemma downloadMedia_plain_progress (ct fp : List Char) (t : Nat) (ext : List Char)
    (bs : List (List Nat)) (fs : Bool) (hext : getMediaMimeExtension ct = some ext)
    (hbs : bs ≠ []) :
    (downloadMedia ct fp (some t) (plainChunks bs) fs).2.knowsPercent = true ∧
    (downloadMedia ct fp (some t) (plainChunks bs) fs).2.percent
      = round2 ((sumLen bs : ℚ) / (t : ℚ)) := by
  have hrun := runChunks_plain_progress t bs hbs (openState fp ext)
  have h := downloadMedia_finished ct fp (some t) (plainChunks bs) fs ext hext
    (by rw [hrun])
  rw [h, hrun]
  exact ⟨rfl, by simp [openState, initState]⟩

lemma downloadMedia_nil_percent (ct fp : List Char) (total : Option Nat)
    (ext : List Char) (fs : Bool) (hext : getMediaMimeExtension ct = some ext) :
    (downloadMedia ct fp total (plainChunks []) fs).2.percent = 0 := by
  have h := downloadMedia_finished ct fp total (plainChunks []) fs ext hext rfl
  rw [h]
  rfl

/-- C2: with a declared content length, after each processed chunk the progress
handle reports a known percentage equal to the bytes accumulated so far divided by
the declared total, rounded to two decimal places; the percentage never decreases
across the chunk sequence; and on a successful download whose delivered bytes equal
the declared total, the final percentage is exactly 1. -/
theorem claim_c2 (ct fp : List Char) (t : Nat) (ext : List Char) (bs : List (List Nat))
    (hext : getMediaMimeExtension ct = some ext) (ht : 0 < t) :
    (∀ n, 1 ≤ n → n ≤ bs.length →
      (downloadMedia ct fp (some t) (plainChunks (bs.take n)) false).2.knowsPercent
          = true ∧
      (downloadMedia ct fp (some t) (plainChunks (bs.take n)) false).2.percent
          = round2 ((sumLen (bs.take n) : ℚ) / (t : ℚ))) ∧
    (∀ m n, m ≤ n → n ≤ bs.length →
      (downloadMedia ct fp (some t) (plainChunks (bs.take m)) false).2.percent
          ≤ (downloadMedia ct fp (some t) (plainChunks (bs.take n)) false).2.percent) ∧
    (sumLen bs = t →
      (downloadMedia ct fp (some t) (plainChunks bs) false).1 = DlResult.resolved ext ∧
      (downloadMedia ct fp (some t) (plainChunks bs) false).2.percent = 1) := by
  have htq : (0 : ℚ) < (t : ℚ) := by exact_mod_cast ht
  have hne : ∀ k, 1 ≤ k → k ≤ bs.length → bs.take k ≠ [] := by
    intro k h1 hk hc
    have hlen := congrArg List.length hc
    simp only [List.length_take, List.length_nil] at hlen
    omega
  refine ⟨?_, ?_, ?_⟩
  · intro n h1 hn
    exact downloadMedia_plain_progress ct fp t ext (bs.take n) false hext (hne n h1 hn)
  · intro m n hmn hn
    by_cases hm0 : m = 0
    · subst hm0
      rw [show bs.take 0 = ([] : List (List Nat)) from rfl,
        downloadMedia_nil_percent ct fp (some t) ext false hext]
      by_cases hn0 : n = 0
      · subst hn0
        rw [show bs.take 0 = ([] : List (List Nat)) from rfl,
          downloadMedia_nil_percent ct fp (some t) ext false hext]
      · have h1n : 1 ≤ n := Nat.one_le_iff_ne_zero.mpr hn0
        have hp := downloadMedia_plain_progress ct fp t ext (bs.take n) false hext
          (hne n h1n hn)
        rw [hp.2]
        exact round2_nonneg (div_nonneg (Nat.cast_nonneg _) htq.le)
    · have h1m : 1 ≤ m := Nat.one_le_iff_ne_zero.mpr hm0
      have h1n : 1 ≤ n := le_trans h1m hmn
      have hpm := (downloadMedia_plain_progress ct fp t ext (bs.take m) false hext
        (hne m h1m (le_trans hmn hn))).2
      have hpn := (downloadMedia_plain_progress ct fp t ext (bs.take n) false hext
        (hne n h1n hn)).2
      rw [hpm, hpn]
      exact round2_mono
        ((div_le_div_iff_of_pos_right htq).mpr (by exact_mod_cast sumLen_take_mono bs hmn))
  · intro hsum
    have hbs : bs ≠ [] := by
      intro hc
      subst hc
      simp [sumLen] at hsum
      omega
    constructor
    · obtain ⟨d, k, p, hrun⟩ := runChunks_plain_fields (some t) bs (openState fp ext)
      have h := downloadMedia_finished ct fp (some t) (plainChunks bs) false ext hext
        (by rw [hrun])
      rw [h]
      rfl
    · have hp := (downloadMedia_plain_progress ct fp t ext bs false hext hbs).2
      rw [hp, hsum, div_self (ne_of_gt htq)]
      exact round2_one

/-- Witness for C2: a png download of 4 declared bytes delivered in two 2-byte
chunks. -/
theorem claim_c2_witness :
    getMediaMimeExtension ("image/png".data) = some ("png".data) ∧ 0 < 4 ∧
    ((∀ n, 1 ≤ n → n ≤ ([[1, 1], [2, 2]] : List (List Nat)).length →
      (downloadMedia ("image/png".data) ("p".data) (some 4)
          (plainChunks (([[1, 1], [2, 2]] : List (List Nat)).take n)) false).2.knowsPercent
          = true ∧
      (downloadMedia ("image/png".data) ("p".data) (some 4)
          (plainChunks (([[1, 1], [2, 2]] : List (List Nat)).take n)) false).2.percent
          = round2 ((sumLen (([[1, 1], [2, 2]] : List (List Nat)).take n) : ℚ) / (4 : ℚ))) ∧
    (∀ m n, m ≤ n → n ≤ ([[1, 1], [2, 2]] : List (List Nat)).length →
      (downloadMedia ("image/png".data) ("p".data) (some 4)
          (plainChunks (([[1, 1], [2, 2]] : List (List Nat)).take m)) false).2.percent
          ≤ (downloadMedia ("image/png".data) ("p".data) (some 4)
              (plainChunks (([[1, 1], [2, 2]] : List (List Nat)).take n)) false).2.percent) ∧
    (sumLen ([[1, 1], [2, 2]] : List (List Nat)) = 4 →
      (downloadMedia ("image/png".data) ("p".data) (some 4)
          (plainChunks ([[1, 1], [2, 2]] : List (List Nat))) false).1
          = DlResult.resolved ("png".data) ∧
      (downloadMedia ("image/png".data) ("p".data) (some 4)
          (plainChunks ([[1, 1], [2, 2]] : List (List Nat))) false).2.percent = 1)) :=
  ⟨by decide, by decide,
    claim_c2 ("image/png".data) ("p".data) 4 ("png".data) [[1, 1], [2, 2]]
      (by decide) (by decide)⟩

/-- C8 counterexample: the claim says the per-chunk percentage always lies in
[0,1] even when the delivered bytes exceed the declared content length, but the
code never clamps: a 3-byte chunk against a declared total of 2 drives the stored
percentage to 1.5. -/
theorem claim_c8_counterexample :
    ¬ (0 ≤ (downloadMedia ("image/png".data) ("f".data) (some 2)
          (plainChunks [[0, 0, 0]]) false).2.percent ∧
       (downloadMedia ("image/png".data) ("f".data) (some 2)
          (plainChunks [[0, 0, 0]]) false).2.percent ≤ 1) := by
  have hgt : 1 < (downloadMedia ("image/png".data) ("f".data) (some 2)
      (plainChunks [[0, 0, 0]]) false).2.percent := by
    have hp : getMediaMimeExtension ("image/png".data) = some ("png".data) := by decide
    simp only [downloadMedia, hp, plainChunks, List.map, runChunks, Bool.false_eq_true,
      reduceIte]
    norm_num [round2, openState, initState]
  exact fun h => absurd h.2 (not_le.mpr hgt)

/-- C8 amended: after each per-chunk progress update the stored percentage equals
the accumulated bytes divided by the declared total, rounded to two decimal places
with no clamping; it lies in [0,1] whenever the bytes delivered so far do not
exceed the declared content length (and can exceed 1 otherwise). -/
theorem claim_c8_amended (ct fp : List Char) (t : Nat) (ext : List Char)
    (bs : List (List Nat)) (hext : getMediaMimeExtension ct = some ext) (ht : 0 < t)
    (hsum : sumLen bs ≤ t) :
    ∀ n, n ≤ bs.length →
      0 ≤ (downloadMedia ct fp (some t) (plainChunks (bs.take n)) false).2.percent ∧
      (downloadMedia ct fp (some t) (plainChunks (bs.take n)) false).2.percent ≤ 1 := by
  have htq : (0 : ℚ) < (t : ℚ) := by exact_mod_cast ht
  intro n hn
  by_cases hn0 : n = 0
  · subst hn0
    rw [show bs.take 0 = ([] : List (List Nat)) from rfl,
      downloadMedia_nil_percent ct fp (some t) ext false hext]
    exact ⟨le_rfl, by norm_num⟩
  · have h1n : 1 ≤ n := Nat.one_le_iff_ne_zero.mpr hn0
    have hne : bs.take n ≠ [] := by
      intro hc
      have hlen := congrArg List.length hc
      simp only [List.length_take, List.length_nil] at hlen
      omega
    have hp := (downloadMedia_plain_progress ct fp t ext (bs.take n) false hext hne).2
    rw [hp]
    constructor
    · exact round2_nonneg (div_nonneg (Nat.cast_nonneg _) htq.le)
    · refine round2_le_one ((div_le_one htq).mpr ?_)
      exact_mod_cast le_trans (sumLen_take_le bs n) hsum

/-- Witness for C8 amended: a bmp download of 5 declared bytes delivering 4. -/
theorem claim_c8_witness :
    getMediaMimeExtension ("image/bmp".data) = some ("bmp".data) ∧ 0 < 5 ∧
    sumLen ([[9, 9], [7, 7]] : List (List Nat)) ≤ 5 ∧
    (∀ n, n ≤ ([[9, 9], [7, 7]] : List (List Nat)).length →
      0 ≤ (downloadMedia ("image/bmp".data) ("b".data) (some 5)
          (plainChunks (([[9, 9], [7, 7]] : List (List Nat)).take n)) false).2.percent ∧
      (downloadMedia ("image/bmp".data) ("b".data) (some 5)
          (plainChunks (([[9, 9], [7, 7]] : List (List Nat)).take n)) false).2.percent ≤ 1) :=
  ⟨by decide, by decide, by decide,
    claim_c8_amended ("image/bmp".data) ("b".data) 5 ("bmp".data) [[9, 9], [7, 7]]
      (by decide) (by decide) (by decide)⟩

end Http
